import Mathlib

set_option maxRecDepth 100000

/-!
# Verification of the Speeddial repository

Shallow embedding of the two C source files:

* `src/speeddial1000nos5dir.c` — the directory-partitioned speed-dial store
  (`SpeedDialManager`, `initializeSpeedDialManager`, `addNumber`,
  `getPhoneNumber`, `removeNumber`, `listNumbersInDirectory`,
  `listAllDirectoryNames`, `freeSpeedDialManager`).
* `src/Spddia.c` — the simpler indexed variant (`assignSpeedDial`).

C strings are modelled as Lean `String`s; `strcmp(a,b)==0` becomes `a == b`,
`strlen` becomes `strLen` (character count), and
`strncpy(dst, src, N-1); dst[N-1]='\0'` into an `N`-byte buffer becomes
`strTake (N-1) src`.  The fixed C array of `MAX_DIRECTORIES` slots together
with its `currentCount` field is modelled as the list of the `currentCount`
valid entries; a `NULL` entries pointer is modelled as `Option.none`.
Each C function that signals errors through a collapsed return value
(`false` / `NULL`) is embedded twice: a `…R` form returning the outcome of
the branch actually taken (mirroring the source's control flow line by
line), and the public form that collapses the outcome to the C return value.
`printf` reporting is not modelled (it carries no store state); the listing
functions return the sequence of pairs they would print.
-/

namespace Speeddial

/-- `strlen`, at the character level. -/
def strLen (s : String) : Nat := s.data.length

/-- Effect on the stored C string of `strncpy(dst, src, n)` followed by
`dst[n] = '\0'`: the first `n` characters of `src`. -/
def strTake (n : Nat) (s : String) : String := ⟨s.data.take n⟩

/-! ## Constants (`#define`s of `speeddial1000nos5dir.c`) -/

def MAX_DIRECTORIES : Nat := 5
def TOTAL_NUMBERS : Nat := 1000
def MAX_NUMBERS_PER_DIRECTORY : Nat := TOTAL_NUMBERS / MAX_DIRECTORIES
def MAX_CODE_LENGTH : Nat := 50
def MAX_PHONE_LENGTH : Nat := 20
def MAX_DIR_NAME_LENGTH : Nat := 50

/-! ## Data structures -/

/-- `SpeedDialEntry`: a speed-dial code and its phone number. -/
structure SpeedDialEntry where
  speedDialCode : String
  phoneNumber : String
deriving DecidableEq, Repr

/-- `Directory`: a name and a dynamically allocated entry array.
`entries = none` models a `NULL` pointer; `some l` models an allocated
array whose first `currentCount` slots hold the entries `l`
(so `currentCount = l.length`). -/
structure Directory where
  name : String
  entries : Option (List SpeedDialEntry)
deriving DecidableEq, Repr

/-- `dir->currentCount`. -/
def Directory.currentCount (d : Directory) : Nat := (d.entries.getD []).length

/-- `SpeedDialManager`: the five directories and the `initialized` flag. -/
structure SpeedDialManager where
  directories : List Directory
  initialized : Bool
deriving DecidableEq, Repr

/-- The global `SpeedDialManager manager;` as zero-initialized at program
start: `initialized = false`, all names empty, all entry pointers `NULL`. -/
def manager0 : SpeedDialManager :=
  { directories := List.replicate MAX_DIRECTORIES { name := "", entries := none },
    initialized := false }

/-- The directory-lookup loop shared by `addNumber`, `getPhoneNumber`,
`removeNumber` and `listNumbersInDirectory`: scan the directory array in
order, return the first index whose name `strcmp`-equals `directoryName`
together with that directory, or nothing (`dirIndex == -1`). -/
def findDirAux : List Directory → String → Option (Nat × Directory)
  | [], _ => none
  | d :: rest, dn =>
    if d.name == dn then some (0, d)
    else (findDirAux rest dn).map (fun p => (p.1 + 1, p.2))

def findDir (m : SpeedDialManager) (dn : String) : Option (Nat × Directory) :=
  findDirAux m.directories dn

/-! ## Operations of `speeddial1000nos5dir.c` -/

/-- Outcome of `initializeSpeedDialManager` (which branch returned). -/
inductive InitOutcome | ok | alreadyInitialized
deriving DecidableEq, Repr

/-- `initializeSpeedDialManager`: reject when already initialized;
otherwise give every slot `i` the name `"Directory i+1"`, a zero count and
a fresh allocation, and set the flag.  (`malloc` failure aborts the process
in the source and is not modelled.) -/
def initializeSpeedDialManager (m : SpeedDialManager) :
    InitOutcome × SpeedDialManager :=
  if m.initialized then (.alreadyInitialized, m)
  else
    (.ok,
     { directories :=
         (List.range MAX_DIRECTORIES).map
           (fun i => { name := "Directory " ++ toString (i + 1),
                       entries := some [] }),
       initialized := true })

/-- Outcome of `addNumber` (which of its return points was taken). -/
inductive AddOutcome | ok | notInitialized | dirNotFound | dirFull | duplicateCode
deriving DecidableEq, Repr

/-- `addNumber`, branch for branch: initialization gate, directory lookup,
capacity check (`currentCount >= MAX_NUMBERS_PER_DIRECTORY`), duplicate
scan against the raw `speedDialCode` argument, then the two `strncpy`
stores (which truncate to `MAX_CODE_LENGTH - 1` resp.
`MAX_PHONE_LENGTH - 1` characters) and the count increment. -/
def addNumberR (m : SpeedDialManager)
    (directoryName speedDialCode phoneNumber : String) :
    AddOutcome × SpeedDialManager :=
  if !m.initialized then (.notInitialized, m)
  else
    match findDir m directoryName with
    | none => (.dirNotFound, m)
    | some (i, dir) =>
      let l := dir.entries.getD []
      if MAX_NUMBERS_PER_DIRECTORY ≤ l.length then (.dirFull, m)
      else if l.any (fun e => e.speedDialCode == speedDialCode) then
        (.duplicateCode, m)
      else
        let e : SpeedDialEntry :=
          { speedDialCode := strTake (MAX_CODE_LENGTH - 1) speedDialCode,
            phoneNumber := strTake (MAX_PHONE_LENGTH - 1) phoneNumber }
        (.ok,
         { m with directories :=
             m.directories.set i { dir with entries := some (l ++ [e]) } })

/-- Public `addNumber`: the C function returns `true` exactly on the
successful return point and `false` on every error return point. -/
def addNumber (m : SpeedDialManager) (dn c p : String) :
    Bool × SpeedDialManager :=
  ((addNumberR m dn c p).1 == .ok, (addNumberR m dn c p).2)

/-- Outcome of `getPhoneNumber` (which branch returned). -/
inductive GetOutcome | found | notInitialized | dirNotFound | codeNotFound
deriving DecidableEq, Repr

/-- `getPhoneNumber`, branch for branch: initialization gate, directory
lookup, then linear scan returning the first entry whose code matches. -/
def getPhoneNumberR (m : SpeedDialManager) (directoryName speedDialCode : String) :
    GetOutcome × Option String :=
  if !m.initialized then (.notInitialized, none)
  else
    match findDir m directoryName with
    | none => (.dirNotFound, none)
    | some (_, dir) =>
      match (dir.entries.getD []).find? (fun e => e.speedDialCode == speedDialCode) with
      | some e => (.found, some e.phoneNumber)
      | none => (.codeNotFound, none)

/-- Public `getPhoneNumber`: a phone number on success, `NULL` (= `none`)
on every error path. -/
def getPhoneNumber (m : SpeedDialManager) (dn c : String) : Option String :=
  (getPhoneNumberR m dn c).2

/-- Outcome of `removeNumber` (which branch returned). -/
inductive RemoveOutcome | ok | notInitialized | dirNotFound | codeNotFound
deriving DecidableEq, Repr

/-- `removeNumber`, branch for branch: initialization gate, directory
lookup, linear scan for the first index whose code matches
(`entryIndex == -1` on no match), then the left-shift loop
`for (i = entryIndex; i < count-1; i++) entries[i] = entries[i+1]` and the
count decrement — on the valid prefix this is exactly `List.eraseIdx`. -/
def removeNumberR (m : SpeedDialManager) (directoryName speedDialCode : String) :
    RemoveOutcome × SpeedDialManager :=
  if !m.initialized then (.notInitialized, m)
  else
    match findDir m directoryName with
    | none => (.dirNotFound, m)
    | some (i, dir) =>
      let l := dir.entries.getD []
      match l.findIdx? (fun e => e.speedDialCode == speedDialCode) with
      | none => (.codeNotFound, m)
      | some j =>
        (.ok,
         { m with directories :=
             m.directories.set i { dir with entries := some (l.eraseIdx j) } })

/-- Public `removeNumber`: `true` on the successful return point, `false`
on every error return point. -/
def removeNumber (m : SpeedDialManager) (dn c : String) :
    Bool × SpeedDialManager :=
  ((removeNumberR m dn c).1 == .ok, (removeNumberR m dn c).2)

/-- `listNumbersInDirectory`: the sequence of (code, number) pairs the
function prints, or `none` on its two error returns.  The function only
reads the store. -/
def listNumbersInDirectory (m : SpeedDialManager) (directoryName : String) :
    Option (List (String × String)) :=
  if !m.initialized then none
  else
    match findDir m directoryName with
    | none => none
    | some (_, dir) =>
      some ((dir.entries.getD []).map (fun e => (e.speedDialCode, e.phoneNumber)))

/-- `listAllDirectoryNames`: the names the function prints, or `none` when
not initialized.  The function only reads the store. -/
def listAllDirectoryNames (m : SpeedDialManager) : Option (List String) :=
  if !m.initialized then none
  else some (m.directories.map (fun d => d.name))

/-- Outcome of `freeSpeedDialManager` (which branch returned). -/
inductive FreeOutcome | ok | notInitialized
deriving DecidableEq, Repr

/-- `freeSpeedDialManager`: reject when not initialized; otherwise call
`free` on every non-`NULL` entries pointer, set each pointer to `NULL`,
and clear the flag.  The middle component counts the `free()` calls
actually performed, so that release-exactly-once is observable. -/
def freeSpeedDialManager (m : SpeedDialManager) :
    FreeOutcome × Nat × SpeedDialManager :=
  if !m.initialized then (.notInitialized, 0, m)
  else
    (.ok,
     (m.directories.filter (fun d => d.entries.isSome)).length,
     { directories := m.directories.map (fun d => { d with entries := none }),
       initialized := false })

/-- The entry that `addNumber` stores: the result of its two `strncpy`
calls on the raw arguments. -/
def storedEntry (c p : String) : SpeedDialEntry :=
  { speedDialCode := strTake (MAX_CODE_LENGTH - 1) c,
    phoneNumber := strTake (MAX_PHONE_LENGTH - 1) p }

/-- The manager with directory slot `i` holding `dir` with its entry list
replaced by `l` (name untouched) — the shape of every in-place update that
`addNumber` and `removeNumber` perform. -/
def setEntries (m : SpeedDialManager) (i : Nat) (dir : Directory)
    (l : List SpeedDialEntry) : SpeedDialManager :=
  { m with directories := m.directories.set i { dir with entries := some l } }

/-! ## Operation sequences

For state-invariant claims we close the operations under sequencing: an
`Op` is one call of a mutating API function, applied to the global manager
state. -/

inductive Op
  | init
  | add (dn c p : String)
  | remove (dn c : String)
  | free
deriving DecidableEq, Repr

def applyOp (m : SpeedDialManager) : Op → SpeedDialManager
  | .init => (initializeSpeedDialManager m).2
  | .add dn c p => (addNumberR m dn c p).2
  | .remove dn c => (removeNumberR m dn c).2
  | .free => (freeSpeedDialManager m).2.2

/-- The manager state after running `ops` from program start. -/
def runOps (ops : List Op) : SpeedDialManager :=
  ops.foldl applyOp manager0

/-- Codes stored in one directory, in insertion order. -/
def Directory.codes (d : Directory) : List String :=
  (d.entries.getD []).map (fun e => e.speedDialCode)

/-- Per-partition key uniqueness: in every directory the stored codes are
pairwise distinct. -/
def codesUnique (m : SpeedDialManager) : Prop :=
  ∀ d ∈ m.directories, d.codes.Nodup

instance (m : SpeedDialManager) : Decidable (codesUnique m) := by
  unfold codesUnique; infer_instance

/-- Number of entries with code `c` in directory `dn` (how often a code
occurs in one partition). -/
def codeCount (m : SpeedDialManager) (dn c : String) : Nat :=
  match findDir m dn with
  | none => 0
  | some (_, dir) =>
    ((dir.entries.getD []).filter (fun e => e.speedDialCode == c)).length

/-! ## `src/Spddia.c` -/

def MAX_SPEED_DIALS : Nat := 10
def MAX_PHONE_NUMBER_LEN : Nat := 15

/-- `SpeedDialEntry` of `Spddia.c`: number plus contact name, each a fixed
buffer (`15` resp. `20` bytes). -/
structure SpddiaEntry where
  phoneNumber : String
  contactName : String
deriving DecidableEq, Repr

/-- The zero-initialized global `speedDialList[MAX_SPEED_DIALS]`. -/
def speedDialList0 : List SpddiaEntry :=
  List.replicate MAX_SPEED_DIALS { phoneNumber := "", contactName := "" }

/-- `assignSpeedDial`, branch for branch: index range check, then the hard
length rejection `strlen(number) >= MAX_PHONE_NUMBER_LEN` (no truncation),
then `strcpy` of the number; the optional name is stored only when present
and short enough, else cleared.  Returns the C result (`0` ok, `-1` error)
with the updated list. -/
def assignSpeedDial (lst : List SpddiaEntry) (index : Int)
    (number : String) (name : Option String) : Int × List SpddiaEntry :=
  if index < 0 || (MAX_SPEED_DIALS : Int) ≤ index then (-1, lst)
  else if MAX_PHONE_NUMBER_LEN ≤ strLen number then (-1, lst)
  else
    let nm : String :=
      match name with
      | some n => if strLen n < 20 then n else ""
      | none => ""
    (0, lst.set index.toNat { phoneNumber := number, contactName := nm })

/-- `getSpeedDialNumber`: `NULL` on invalid index or unassigned slot
(empty number), else the stored number. -/
def getSpeedDialNumber (lst : List SpddiaEntry) (index : Int) : Option String :=
  if index < 0 || (MAX_SPEED_DIALS : Int) ≤ index then none
  else
    match lst[index.toNat]? with
    | none => none
    | some e => if e.phoneNumber = "" then none else some e.phoneNumber

/-! ## Derived states and concrete inputs -/

/-- The manager right after a first `initializeSpeedDialManager()`. -/
def mInit : SpeedDialManager := (initializeSpeedDialManager manager0).2

/-- The manager state `freeSpeedDialManager` leaves behind on its
successful branch: every entries pointer `NULL`, flag cleared. -/
def teardownState (m : SpeedDialManager) : SpeedDialManager :=
  { directories := m.directories.map (fun d => { d with entries := none }),
    initialized := false }

/-- Property of an operation: if it is an add, its code is within the
configured maximum (`strlen(code) <= MAX_CODE_LENGTH - 1`, the longest
code an entry buffer can hold). -/
def opCodeBounded : Op → Prop
  | .add _ c _ => strLen c ≤ MAX_CODE_LENGTH - 1
  | _ => True

instance : DecidablePred opCodeBounded := fun op => by
  cases op <;> simp only [opCodeBounded] <;> infer_instance

/-- A directory holding home/work/mom, as built by three adds. -/
def dirThree : Directory :=
  { name := "Directory 1",
    entries := some [{ speedDialCode := "home", phoneNumber := "111" },
                     { speedDialCode := "work", phoneNumber := "222" },
                     { speedDialCode := "mom", phoneNumber := "333" }] }

/-- The manager after initialize and three adds into Directory 1. -/
def mThree : SpeedDialManager :=
  (addNumberR (addNumberR (addNumberR mInit "Directory 1" "home" "111").2
    "Directory 1" "work" "222").2 "Directory 1" "mom" "333").2

/-- 200 distinct-code entries, filling one directory to capacity. -/
def bigEntries : List SpeedDialEntry :=
  (List.range MAX_NUMBERS_PER_DIRECTORY).map
    (fun k => { speedDialCode := "c" ++ toString k, phoneNumber := "555" })

/-- Directory 1 filled to capacity. -/
def bigDir : Directory := { name := "Directory 1", entries := some bigEntries }

/-- An initialized manager whose Directory 1 is full. -/
def mFull : SpeedDialManager :=
  { mInit with directories := mInit.directories.set 0 bigDir }

/-- The manager after initialize and one add into Directory 1. -/
def mOne : SpeedDialManager := (addNumberR mInit "Directory 1" "home" "111").2

/-- A 49-character code (exactly fits an entry buffer). -/
def codeA49 : String := ⟨List.replicate 49 'a'⟩

/-- A 50-character code (one too long; `strncpy` truncates it to 49). -/
def codeA50 : String := ⟨List.replicate 50 'a'⟩

end Speeddial

/-! ## Basic lemmas about the embedding -/

namespace Speeddial

theorem strTake_eq_of_le {n : Nat} {s : String} (h : strLen s ≤ n) :
    strTake n s = s := by
  cases s with
  | mk data =>
    simp only [strTake, strLen] at *
    exact congrArg String.mk (List.take_of_length_le h)

theorem findDirAux_eq_some {l : List Directory} {dn : String} {i : Nat}
    {d : Directory} (h : findDirAux l dn = some (i, d)) :
    l[i]? = some d ∧ d.name = dn := by
  induction l generalizing i with
  | nil => simp [findDirAux] at h
  | cons d₀ rest ih =>
    by_cases hdn : d₀.name = dn
    · simp only [findDirAux, hdn, beq_self_eq_true, if_true, Option.some.injEq,
        Prod.mk.injEq] at h
      obtain ⟨rfl, rfl⟩ := h
      simp [hdn]
    · have hdn2 : (d₀.name == dn) = false := beq_eq_false_iff_ne.mpr hdn
      simp only [findDirAux, hdn2, Bool.false_eq_true, if_false,
        Option.map_eq_some'] at h
      obtain ⟨⟨j, d₁⟩, hp, heq⟩ := h
      simp only [Prod.mk.injEq] at heq
      obtain ⟨rfl, rfl⟩ := heq
      have hr := ih hp
      exact ⟨by simpa using hr.1, hr.2⟩

theorem findDirAux_set (dn : String) (d' : Directory) (l : List Directory) :
    ∀ (i : Nat), (∀ d₀, l[i]? = some d₀ → d'.name = d₀.name) →
      findDirAux (l.set i d') dn =
        (findDirAux l dn).map (fun p => if p.1 = i then (i, d') else p) := by
  induction l with
  | nil => intro i _; simp [findDirAux]
  | cons d rest ih =>
    intro i h
    cases i with
    | zero =>
      have hd : d'.name = d.name := h d (by simp)
      by_cases hdn : d.name = dn
      · simp [findDirAux, List.set, hd, hdn]
      · have hdn2 : (d.name == dn) = false := beq_eq_false_iff_ne.mpr hdn
        have hdn3 : (d'.name == dn) = false := by rw [hd]; exact hdn2
        simp only [List.set, findDirAux, hdn2, hdn3, Bool.false_eq_true, if_false]
        cases hr : findDirAux rest dn with
        | none => simp
        | some p => simp
    | succ i =>
      have ih2 := ih i (fun d₀ hd₀ => h d₀ (by simpa using hd₀))
      by_cases hdn : d.name = dn
      · simp [findDirAux, List.set, hdn]
      · have hdn2 : (d.name == dn) = false := beq_eq_false_iff_ne.mpr hdn
        simp only [List.set, findDirAux, hdn2, Bool.false_eq_true, if_false, ih2]
        cases hr : findDirAux rest dn with
        | none => simp
        | some p =>
          by_cases hpi : p.1 = i
          · simp [hpi]
          · simp [hpi]

theorem findDir_set {m : SpeedDialManager} {dn : String} {i : Nat}
    {dir dirN : Directory} (hfind : findDir m dn = some (i, dir))
    (hname : dirN.name = dir.name) :
    findDir { m with directories := m.directories.set i dirN } dn
      = some (i, dirN) := by
  have h1 := findDirAux_eq_some hfind
  unfold findDir at *
  rw [findDirAux_set dn dirN m.directories i
    (fun d0 hd0 => by rw [h1.1] at hd0; cases hd0; exact hname)]
  rw [hfind]
  simp

theorem findDir_setEntries {m : SpeedDialManager} {dn : String} {i : Nat}
    {dir : Directory} (hfind : findDir m dn = some (i, dir))
    (l : List SpeedDialEntry) :
    findDir (setEntries m i dir l) dn
      = some (i, { dir with entries := some l }) :=
  findDir_set hfind rfl

theorem addNumberR_ok {m : SpeedDialManager} {dn c p : String} {i : Nat}
    {dir : Directory}
    (hinit : m.initialized = true)
    (hfind : findDir m dn = some (i, dir))
    (hlen : (dir.entries.getD []).length < MAX_NUMBERS_PER_DIRECTORY)
    (hdup : ∀ e ∈ dir.entries.getD [], e.speedDialCode ≠ c) :
    addNumberR m dn c p =
      (.ok, setEntries m i dir ((dir.entries.getD []) ++ [storedEntry c p])) := by
  have hany : (dir.entries.getD []).any (fun e => e.speedDialCode == c) = false := by
    simp only [List.any_eq_false]
    intro e he
    simpa using hdup e he
  simp [addNumberR, hinit, hfind, hany, Nat.not_le.mpr hlen, setEntries, storedEntry]

theorem addNumberR_full {m : SpeedDialManager} {dn c p : String} {i : Nat}
    {dir : Directory}
    (hinit : m.initialized = true)
    (hfind : findDir m dn = some (i, dir))
    (hlen : MAX_NUMBERS_PER_DIRECTORY ≤ (dir.entries.getD []).length) :
    addNumberR m dn c p = (.dirFull, m) := by
  simp [addNumberR, hinit, hfind, hlen]

theorem addNumberR_duplicate {m : SpeedDialManager} {dn c p : String} {i : Nat}
    {dir : Directory}
    (hinit : m.initialized = true)
    (hfind : findDir m dn = some (i, dir))
    (hlen : (dir.entries.getD []).length < MAX_NUMBERS_PER_DIRECTORY)
    (hdup : ∃ e ∈ dir.entries.getD [], e.speedDialCode = c) :
    addNumberR m dn c p = (.duplicateCode, m) := by
  have hany : (dir.entries.getD []).any (fun e => e.speedDialCode == c) = true := by
    simp only [List.any_eq_true]
    obtain ⟨e, he, hec⟩ := hdup
    exact ⟨e, he, by simpa using hec⟩
  simp [addNumberR, hinit, hfind, hany, Nat.not_le.mpr hlen]

theorem removeNumberR_ok {m : SpeedDialManager} {dn c : String} {i j : Nat}
    {dir : Directory}
    (hinit : m.initialized = true)
    (hfind : findDir m dn = some (i, dir))
    (hj : (dir.entries.getD []).findIdx? (fun e => e.speedDialCode == c) = some j) :
    removeNumberR m dn c =
      (.ok, setEntries m i dir ((dir.entries.getD []).eraseIdx j)) := by
  simp [removeNumberR, hinit, hfind, hj, setEntries]

theorem removeNumberR_notFound {m : SpeedDialManager} {dn c : String} {i : Nat}
    {dir : Directory}
    (hinit : m.initialized = true)
    (hfind : findDir m dn = some (i, dir))
    (habs : ∀ e ∈ dir.entries.getD [], e.speedDialCode ≠ c) :
    removeNumberR m dn c = (.codeNotFound, m) := by
  have hnone : (dir.entries.getD []).findIdx? (fun e => e.speedDialCode == c) = none := by
    rw [List.findIdx?_eq_none_iff]
    intro e he
    simpa using habs e he
  simp [removeNumberR, hinit, hfind, hnone]

/-- C6: every operation other than initialize (add, get, remove, the two
listings, teardown), invoked while the store is not in the ready state,
takes the `!manager.initialized` early-return branch: it reports
NotInitialized (`false` / `NULL` / no output) and returns the store state
unchanged. -/
theorem claim6_lifecycle_gating (m : SpeedDialManager) (dn c p : String)
    (h : m.initialized = false) :
    addNumberR m dn c p = (.notInitialized, m) ∧
    getPhoneNumberR m dn c = (.notInitialized, none) ∧
    removeNumberR m dn c = (.notInitialized, m) ∧
    listNumbersInDirectory m dn = none ∧
    listAllDirectoryNames m = none ∧
    freeSpeedDialManager m = (.notInitialized, 0, m) := by
  refine ⟨?_, ?_, ?_, ?_, ?_, ?_⟩ <;>
    simp [addNumberR, getPhoneNumberR, removeNumberR, listNumbersInDirectory,
      listAllDirectoryNames, freeSpeedDialManager, h]

/-- Witness for C6 at the zero-initialized start state. -/
theorem claim6_witness :
    manager0.initialized = false ∧
    (addNumberR manager0 "Directory 1" "home" "111" = (.notInitialized, manager0) ∧
     getPhoneNumberR manager0 "Directory 1" "home" = (.notInitialized, none) ∧
     removeNumberR manager0 "Directory 1" "home" = (.notInitialized, manager0) ∧
     listNumbersInDirectory manager0 "Directory 1" = none ∧
     listAllDirectoryNames manager0 = none ∧
     freeSpeedDialManager manager0 = (.notInitialized, 0, manager0)) :=
  ⟨rfl, claim6_lifecycle_gating manager0 "Directory 1" "home" "111" rfl⟩

/-- C7: a second `initializeSpeedDialManager` without an intervening
teardown takes the already-initialized branch: it is rejected and the
store — partitions, names and entries — is returned exactly as it was. -/
theorem claim7_already_initialized (m : SpeedDialManager)
    (h : m.initialized = true) :
    initializeSpeedDialManager m = (.alreadyInitialized, m) := by
  simp [initializeSpeedDialManager, h]

/-- Witness for C7 at the state reached by a first initialize. -/
theorem claim7_witness :
    mInit.initialized = true ∧
    initializeSpeedDialManager mInit = (.alreadyInitialized, mInit) :=
  ⟨rfl, claim7_already_initialized mInit rfl⟩

/-- C8: a first teardown of an initialized store with every partition
allocated performs exactly one `free` per partition, nulls every entries
pointer, and clears the flag; a second teardown without re-initialization
takes the NotInitialized branch, performs zero `free` calls, and changes
nothing. -/
theorem claim8_teardown (m : SpeedDialManager)
    (hinit : m.initialized = true)
    (halloc : ∀ d ∈ m.directories, d.entries.isSome) :
    freeSpeedDialManager m = (.ok, m.directories.length, teardownState m) ∧
    (∀ d ∈ (teardownState m).directories, d.entries = none) ∧
    (teardownState m).initialized = false ∧
    freeSpeedDialManager (teardownState m) =
      (.notInitialized, 0, teardownState m) := by
  have hfilter : m.directories.filter (fun d => d.entries.isSome) = m.directories :=
    List.filter_eq_self.mpr halloc
  refine ⟨?_, ?_, rfl, ?_⟩
  · simp [freeSpeedDialManager, hinit, hfilter, teardownState]
  · intro d hd
    simp only [teardownState, List.mem_map] at hd
    obtain ⟨a, _, rfl⟩ := hd
    rfl
  · simp [freeSpeedDialManager, teardownState]

/-- Witness for C8 at the state reached by a first initialize. -/
theorem claim8_witness :
    mInit.initialized = true ∧
    (∀ d ∈ mInit.directories, d.entries.isSome) ∧
    (freeSpeedDialManager mInit = (.ok, mInit.directories.length, teardownState mInit) ∧
     (∀ d ∈ (teardownState mInit).directories, d.entries = none) ∧
     (teardownState mInit).initialized = false ∧
     freeSpeedDialManager (teardownState mInit) =
       (.notInitialized, 0, teardownState mInit)) :=
  ⟨rfl, by decide, claim8_teardown mInit rfl (by decide)⟩

/-- C9: the public return values collapse all error causes: `addNumber`
and `removeNumber` return `false` exactly when the internal outcome is any
error, `getPhoneNumber` returns `NULL` exactly when the internal outcome
is any of its three error causes — so any two error conditions produce
identical public return values. -/
theorem claim9_error_collapse :
    (∀ m dn c p, (addNumber m dn c p).1 = false ↔ (addNumberR m dn c p).1 ≠ .ok) ∧
    (∀ m dn c, (removeNumber m dn c).1 = false ↔ (removeNumberR m dn c).1 ≠ .ok) ∧
    (∀ m dn c, getPhoneNumber m dn c = none ↔ (getPhoneNumberR m dn c).1 ≠ .found) ∧
    (∀ m₁ m₂ dn₁ dn₂ c₁ c₂ p₁ p₂, (addNumberR m₁ dn₁ c₁ p₁).1 ≠ .ok →
      (addNumberR m₂ dn₂ c₂ p₂).1 ≠ .ok →
      (addNumber m₁ dn₁ c₁ p₁).1 = (addNumber m₂ dn₂ c₂ p₂).1) ∧
    (∀ m₁ m₂ dn₁ dn₂ c₁ c₂, (getPhoneNumberR m₁ dn₁ c₁).1 ≠ .found →
      (getPhoneNumberR m₂ dn₂ c₂).1 ≠ .found →
      getPhoneNumber m₁ dn₁ c₁ = getPhoneNumber m₂ dn₂ c₂) := by
  have hget : ∀ m dn c, getPhoneNumber m dn c = none ↔
      (getPhoneNumberR m dn c).1 ≠ .found := by
    intro m dn c
    unfold getPhoneNumber getPhoneNumberR
    split
    · simp
    · split
      · simp
      · split <;> simp
  refine ⟨fun m dn c p => by simp [addNumber],
          fun m dn c => by simp [removeNumber],
          hget,
          fun m₁ m₂ dn₁ dn₂ c₁ c₂ p₁ p₂ h₁ h₂ => by
            simp [addNumber, h₁, h₂],
          fun m₁ m₂ dn₁ dn₂ c₁ c₂ h₁ h₂ => by
            rw [(hget m₁ dn₁ c₁).mpr h₁, (hget m₂ dn₂ c₂).mpr h₂]⟩

/-- Witness for C9: an uninitialized-store error and a missing-directory
error give identical public return values. -/
theorem claim9_witness :
    (addNumberR manager0 "Directory 1" "home" "111").1 ≠ .ok ∧
    (addNumberR mInit "Directory 9" "home" "111").1 ≠ .ok ∧
    (addNumber manager0 "Directory 1" "home" "111").1 =
      (addNumber mInit "Directory 9" "home" "111").1 :=
  ⟨by decide, by decide,
   claim9_error_collapse.2.2.2.1 manager0 mInit "Directory 1" "Directory 9"
     "home" "home" "111" "111" (by decide) (by decide)⟩

theorem getPhoneNumber_found {m : SpeedDialManager} {dn c : String} {i : Nat}
    {dir : Directory} {e : SpeedDialEntry}
    (hinit : m.initialized = true)
    (hfind : findDir m dn = some (i, dir))
    (hfound : (dir.entries.getD []).find? (fun x => x.speedDialCode == c) = some e) :
    getPhoneNumber m dn c = some e.phoneNumber := by
  simp [getPhoneNumber, getPhoneNumberR, hinit, hfind, hfound]

/-- C5: in an initialized store, adding a fresh code within the length
limits to a non-full partition succeeds, and an immediate get of that code
on the same partition returns exactly the value that was added. -/
theorem claim5_roundtrip (m : SpeedDialManager) (dn c p : String) (i : Nat)
    (dir : Directory)
    (hinit : m.initialized = true)
    (hfind : findDir m dn = some (i, dir))
    (hlen : (dir.entries.getD []).length < MAX_NUMBERS_PER_DIRECTORY)
    (hdup : ∀ e ∈ dir.entries.getD [], e.speedDialCode ≠ c)
    (hclen : strLen c ≤ MAX_CODE_LENGTH - 1)
    (hplen : strLen p ≤ MAX_PHONE_LENGTH - 1) :
    (addNumberR m dn c p).1 = .ok ∧
    getPhoneNumber (addNumberR m dn c p).2 dn c = some p := by
  have hc : strTake (MAX_CODE_LENGTH - 1) c = c := strTake_eq_of_le hclen
  have hp : strTake (MAX_PHONE_LENGTH - 1) p = p := strTake_eq_of_le hplen
  have hadd := addNumberR_ok (c := c) (p := p) hinit hfind hlen hdup
  rw [hadd]
  refine ⟨rfl, ?_⟩
  have hfind2 : findDir (setEntries m i dir ((dir.entries.getD []) ++ [storedEntry c p])) dn
      = some (i, { dir with entries := some ((dir.entries.getD []) ++ [storedEntry c p]) }) :=
    findDir_set hfind rfl
  have hnone : (dir.entries.getD []).find? (fun x => x.speedDialCode == c) = none := by
    rw [List.find?_eq_none]
    intro x hx
    simpa using hdup x hx
  have hfound : ((dir.entries.getD []) ++ [storedEntry c p]).find?
      (fun x => x.speedDialCode == c) = some (storedEntry c p) := by
    rw [List.find?_append, hnone]
    simp [storedEntry, hc]
  have hres := getPhoneNumber_found (m := setEntries m i dir ((dir.entries.getD []) ++ [storedEntry c p]))
    (e := storedEntry c p) hinit hfind2 (by simpa using hfound)
  rw [hres]
  simp [storedEntry, hp]

/-- Witness for C5: add then get of ("home", "111") in a fresh store. -/
theorem claim5_witness :
    ((mInit.initialized = true) ∧
     findDir mInit "Directory 1" = some (0, { name := "Directory 1", entries := some [] }) ∧
     strLen "home" ≤ MAX_CODE_LENGTH - 1 ∧ strLen "111" ≤ MAX_PHONE_LENGTH - 1) ∧
    (addNumberR mInit "Directory 1" "home" "111").1 = .ok ∧
    getPhoneNumber (addNumberR mInit "Directory 1" "home" "111").2 "Directory 1" "home"
      = some "111" :=
  ⟨⟨rfl, by decide, by decide, by decide⟩,
   claim5_roundtrip mInit "Directory 1" "home" "111" 0
     { name := "Directory 1", entries := some [] }
     rfl (by decide) (by decide) (by decide) (by decide) (by decide)⟩

theorem code_not_mem_eraseIdx {l : List SpeedDialEntry} {c : String} {j : Nat}
    (hj : l.findIdx? (fun e => e.speedDialCode == c) = some j)
    (hnodup : (l.map (fun e => e.speedDialCode)).Nodup) :
    ∀ e ∈ l.eraseIdx j, e.speedDialCode ≠ c := by
  obtain ⟨hjlt, hpj, hmin⟩ := List.findIdx?_eq_some_iff_getElem.mp hj
  intro e he hec
  rw [List.eraseIdx_eq_take_drop_succ] at he
  rcases List.mem_append.mp he with htake | hdrop
  · obtain ⟨k, hks⟩ := List.mem_iff_getElem?.mp htake
    have hklen : k < (List.take j l).length := by
      obtain ⟨h2, -⟩ := List.getElem?_eq_some_iff.mp hks
      exact h2
    have hkj : k < j := Nat.lt_of_lt_of_le hklen (List.length_take_le j l)
    have hkl : k < l.length := Nat.lt_trans hkj hjlt
    have hlk : l[k]? = some e := by
      rw [← List.getElem?_take_of_lt (l := l) (n := j) hkj]
      exact hks
    obtain ⟨h3, hlke⟩ := List.getElem?_eq_some_iff.mp hlk
    have hm := hmin k hkj
    rw [hlke] at hm
    simp [hec] at hm
  · have hcs : ((l.map (fun e => e.speedDialCode)).take (j + 1)).Disjoint
        ((l.map (fun e => e.speedDialCode)).drop (j + 1)) :=
      fun a ha hb => List.Pairwise.rel_of_mem_take_of_mem_drop hnodup ha hb rfl
    have hx : c ∈ (l.map (fun e => e.speedDialCode)).take (j + 1) := by
      rw [List.mem_iff_getElem?]
      refine ⟨j, ?_⟩
      rw [List.getElem?_take_of_lt (Nat.lt_succ_self j), List.getElem?_map]
      have hcj : (l[j]).speedDialCode = c := by simpa using hpj
      simp [List.getElem?_eq_getElem hjlt, hcj]
    have hy : c ∈ (l.map (fun e => e.speedDialCode)).drop (j + 1) := by
      rw [← List.map_drop]
      exact hec ▸ List.mem_map_of_mem (fun e => e.speedDialCode) hdrop
    exact hcs hx hy

/-- C4: removing a code present at position `j` of an initialized
partition (codes pairwise distinct) deletes exactly that entry — the
survivors are the entries before `j` followed, in unchanged relative
order, by the entries after `j` — and shrinks the count by exactly one; a
second remove of the same code fails with CodeNotFound and changes
nothing, and removing any absent code fails with CodeNotFound and leaves
the whole store unchanged. -/
theorem claim4_remove_stability (m : SpeedDialManager) (dn c : String)
    (i j : Nat) (dir : Directory)
    (hinit : m.initialized = true)
    (hfind : findDir m dn = some (i, dir))
    (hj : (dir.entries.getD []).findIdx? (fun e => e.speedDialCode == c) = some j)
    (hnodup : ((dir.entries.getD []).map (fun e => e.speedDialCode)).Nodup) :
    removeNumberR m dn c
      = (.ok, setEntries m i dir ((dir.entries.getD []).eraseIdx j)) ∧
    (dir.entries.getD []).eraseIdx j
      = (dir.entries.getD []).take j ++ (dir.entries.getD []).drop (j + 1) ∧
    ((dir.entries.getD []).eraseIdx j).length + 1 = (dir.entries.getD []).length ∧
    removeNumberR (removeNumberR m dn c).2 dn c
      = (.codeNotFound, (removeNumberR m dn c).2) ∧
    (∀ c₀, (∀ e ∈ dir.entries.getD [], e.speedDialCode ≠ c₀) →
      removeNumberR m dn c₀ = (.codeNotFound, m)) := by
  have hjlt : j < (dir.entries.getD []).length :=
    (List.findIdx?_eq_some_iff_getElem.mp hj).1
  have hrem := removeNumberR_ok hinit hfind hj
  refine ⟨hrem, List.eraseIdx_eq_take_drop_succ .., ?_, ?_, ?_⟩
  · rw [List.length_eraseIdx_of_lt hjlt]
    omega
  · rw [hrem]
    have hfind2 : findDir (setEntries m i dir ((dir.entries.getD []).eraseIdx j)) dn
        = some (i, { dir with entries := some ((dir.entries.getD []).eraseIdx j) }) :=
      findDir_set hfind rfl
    exact removeNumberR_notFound hinit hfind2
      (by simpa using code_not_mem_eraseIdx hj hnodup)
  · intro c₀ habs
    exact removeNumberR_notFound hinit hfind habs

/-- Witness for C4: removing "work" from home/work/mom in Directory 1. -/
theorem claim4_witness :
    (mThree.initialized = true ∧
     findDir mThree "Directory 1" = some (0, dirThree) ∧
     (dirThree.entries.getD []).findIdx? (fun e => e.speedDialCode == "work") = some 1 ∧
     ((dirThree.entries.getD []).map (fun e => e.speedDialCode)).Nodup) ∧
    (removeNumberR mThree "Directory 1" "work"
       = (.ok, setEntries mThree 0 dirThree ((dirThree.entries.getD []).eraseIdx 1)) ∧
     (dirThree.entries.getD []).eraseIdx 1
       = (dirThree.entries.getD []).take 1 ++ (dirThree.entries.getD []).drop (1 + 1) ∧
     ((dirThree.entries.getD []).eraseIdx 1).length + 1
       = (dirThree.entries.getD []).length ∧
     removeNumberR (removeNumberR mThree "Directory 1" "work").2 "Directory 1" "work"
       = (.codeNotFound, (removeNumberR mThree "Directory 1" "work").2) ∧
     (∀ c₀, (∀ e ∈ dirThree.entries.getD [], e.speedDialCode ≠ c₀) →
       removeNumberR mThree "Directory 1" c₀ = (.codeNotFound, mThree))) :=
  ⟨⟨rfl, by decide, by decide, by decide⟩,
   claim4_remove_stability mThree "Directory 1" "work" 0 1 dirThree rfl
     (by decide) (by decide) (by decide)⟩

/-- C2: once a partition holds exactly `MAX_NUMBERS_PER_DIRECTORY`
entries, every further add — with any code, so in particular also a
duplicate one, since the capacity check precedes the duplicate scan —
returns PartitionFull and changes nothing; after one successful remove
from that partition, one add of a fresh code succeeds, and then every
further add again returns PartitionFull. -/
theorem claim2_capacity_first (m : SpeedDialManager) (dn c cA pA : String)
    (i j : Nat) (dir : Directory)
    (hinit : m.initialized = true)
    (hfind : findDir m dn = some (i, dir))
    (hfull : (dir.entries.getD []).length = MAX_NUMBERS_PER_DIRECTORY)
    (hj : (dir.entries.getD []).findIdx? (fun e => e.speedDialCode == c) = some j)
    (hfresh : ∀ e ∈ (dir.entries.getD []).eraseIdx j, e.speedDialCode ≠ cA) :
    (∀ q r, addNumberR m dn q r = (.dirFull, m)) ∧
    removeNumberR m dn c
      = (.ok, setEntries m i dir ((dir.entries.getD []).eraseIdx j)) ∧
    (addNumberR (removeNumberR m dn c).2 dn cA pA).1 = .ok ∧
    (∀ q r, addNumberR (addNumberR (removeNumberR m dn c).2 dn cA pA).2 dn q r
      = (.dirFull, (addNumberR (removeNumberR m dn c).2 dn cA pA).2)) := by
  have hjlt : j < (dir.entries.getD []).length :=
    (List.findIdx?_eq_some_iff_getElem.mp hj).1
  have hrem := removeNumberR_ok hinit hfind hj
  have hfind1 := findDir_setEntries hfind ((dir.entries.getD []).eraseIdx j)
  have hlen1 : (({ dir with entries := some ((dir.entries.getD []).eraseIdx j) } : Directory).entries.getD []).length < MAX_NUMBERS_PER_DIRECTORY := by
    show ((dir.entries.getD []).eraseIdx j).length < MAX_NUMBERS_PER_DIRECTORY
    rw [List.length_eraseIdx_of_lt hjlt]
    omega
  have hadd1 := addNumberR_ok (m := setEntries m i dir ((dir.entries.getD []).eraseIdx j)) (c := cA) (p := pA) hinit hfind1 hlen1 hfresh
  have hfind2 := findDir_setEntries hfind1 ((({ dir with entries := some ((dir.entries.getD []).eraseIdx j) } : Directory).entries.getD []) ++ [storedEntry cA pA])
  refine ⟨?_, hrem, ?_, ?_⟩
  · intro q r
    exact addNumberR_full hinit hfind (le_of_eq hfull.symm)
  · rw [hrem, hadd1]
  · intro q r
    rw [hrem, hadd1]
    refine addNumberR_full hinit hfind2 ?_
    show MAX_NUMBERS_PER_DIRECTORY
      ≤ (((dir.entries.getD []).eraseIdx j) ++ [storedEntry cA pA]).length
    rw [List.length_append, List.length_eraseIdx_of_lt hjlt]
    simp only [List.length_cons, List.length_nil]
    omega

/-- Witness for C2 on a concretely full Directory 1 (200 entries). -/
theorem claim2_witness :
    (mFull.initialized = true ∧
     findDir mFull "Directory 1" = some (0, bigDir) ∧
     (bigDir.entries.getD []).length = MAX_NUMBERS_PER_DIRECTORY ∧
     (bigDir.entries.getD []).findIdx? (fun e => e.speedDialCode == "c0") = some 0 ∧
     (∀ e ∈ (bigDir.entries.getD []).eraseIdx 0, e.speedDialCode ≠ "d")) ∧
    ((∀ q r, addNumberR mFull "Directory 1" q r = (.dirFull, mFull)) ∧
     removeNumberR mFull "Directory 1" "c0"
       = (.ok, setEntries mFull 0 bigDir ((bigDir.entries.getD []).eraseIdx 0)) ∧
     (addNumberR (removeNumberR mFull "Directory 1" "c0").2 "Directory 1" "d" "5").1
       = .ok ∧
     (∀ q r, addNumberR
        (addNumberR (removeNumberR mFull "Directory 1" "c0").2 "Directory 1" "d" "5").2
        "Directory 1" q r
      = (.dirFull,
         (addNumberR (removeNumberR mFull "Directory 1" "c0").2 "Directory 1" "d" "5").2))) :=
  ⟨⟨rfl, by decide, by decide, by decide, by decide⟩,
   claim2_capacity_first mFull "Directory 1" "c0" "d" "5" 0 0 bigDir rfl
     (by decide) (by decide) (by decide) (by decide)⟩

/-- C10: a successful add writes the new entry only at the end position of
the target partition — every pre-existing entry of that partition keeps
its index, every other directory slot is untouched, the initialized flag
and all directory names are unchanged.  (`getPhoneNumber` and the two
listing functions are embedded as read-only functions of the state, so
they cannot mutate the store by construction.) -/
theorem claim10_add_frame (m mA : SpeedDialManager) (dn c p : String)
    (h : addNumberR m dn c p = (.ok, mA)) :
    ∃ i dir, findDir m dn = some (i, dir) ∧
      mA = setEntries m i dir ((dir.entries.getD []) ++ [storedEntry c p]) ∧
      mA.initialized = m.initialized ∧
      (∀ k, k ≠ i → mA.directories[k]? = m.directories[k]?) ∧
      (∀ k, k < (dir.entries.getD []).length →
        ((dir.entries.getD []) ++ [storedEntry c p])[k]? = (dir.entries.getD [])[k]?) ∧
      listAllDirectoryNames mA = listAllDirectoryNames m := by
  by_cases hinit : m.initialized = true
  · cases hf : findDir m dn with
    | none => simp [addNumberR, hinit, hf] at h
    | some pr =>
      obtain ⟨i, dir⟩ := pr
      by_cases hcap : MAX_NUMBERS_PER_DIRECTORY ≤ (dir.entries.getD []).length
      · rw [addNumberR_full hinit hf hcap] at h
        simp at h
      · by_cases hdup : ∃ e ∈ dir.entries.getD [], e.speedDialCode = c
        · rw [addNumberR_duplicate hinit hf (Nat.not_le.mp hcap) hdup] at h
          simp at h
        · have hdup2 : ∀ e ∈ dir.entries.getD [], e.speedDialCode ≠ c :=
            fun e he hec => hdup ⟨e, he, hec⟩
          rw [addNumberR_ok hinit hf (Nat.not_le.mp hcap) hdup2] at h
          injection h with h1 h2
          subst h2
          have hmem := (findDirAux_eq_some hf).1
          have hilen : i < m.directories.length :=
            (List.getElem?_eq_some_iff.mp hmem).1
          have hnames : ((m.directories.set i
              ({ dir with entries := some ((dir.entries.getD []) ++ [storedEntry c p]) })).map
                (fun d => d.name))
              = m.directories.map (fun d => d.name) := by
            apply List.ext_getElem?
            intro k
            by_cases hk : k = i
            · subst hk
              rw [List.map_set, List.getElem?_set_self (by simpa using hilen),
                List.getElem?_map, hmem]
              rfl
            · rw [List.map_set, List.getElem?_set_ne (fun hik => hk hik.symm)]
          refine ⟨i, dir, rfl, rfl, rfl, ?_, ?_, ?_⟩
          · intro k hk
            show (m.directories.set i _)[k]? = m.directories[k]?
            exact List.getElem?_set_ne (fun hik => hk hik.symm)
          · intro k hk
            exact List.getElem?_append_left hk
          · show listAllDirectoryNames (setEntries m i dir _) = _
            simp only [listAllDirectoryNames, setEntries]
            rw [hinit]
            simp only [Bool.not_true, Bool.false_eq_true, if_false]
            rw [hnames]
  · have hinit2 : m.initialized = false := by
      simpa using hinit
    simp [addNumberR, hinit2] at h

/-- Witness for C10: the first add into a fresh store. -/
theorem claim10_witness :
    addNumberR mInit "Directory 1" "home" "111" = (.ok, mOne) ∧
    (∃ i dir, findDir mInit "Directory 1" = some (i, dir) ∧
      mOne = setEntries mInit i dir
        ((dir.entries.getD []) ++ [storedEntry "home" "111"]) ∧
      mOne.initialized = mInit.initialized ∧
      (∀ k, k ≠ i → mOne.directories[k]? = mInit.directories[k]?) ∧
      (∀ k, k < (dir.entries.getD []).length →
        ((dir.entries.getD []) ++ [storedEntry "home" "111"])[k]?
          = (dir.entries.getD [])[k]?) ∧
      listAllDirectoryNames mOne = listAllDirectoryNames mInit) :=
  ⟨by decide,
   claim10_add_frame mInit mOne "Directory 1" "home" "111" (by decide)⟩

theorem addNumberR_state_cases (m : SpeedDialManager) (dn c p : String) :
    (addNumberR m dn c p).2 = m ∨
    ∃ i dir, findDir m dn = some (i, dir) ∧
      (∀ e ∈ dir.entries.getD [], e.speedDialCode ≠ c) ∧
      (addNumberR m dn c p).2
        = setEntries m i dir ((dir.entries.getD []) ++ [storedEntry c p]) := by
  by_cases hinit : m.initialized = true
  · cases hf : findDir m dn with
    | none => left; simp [addNumberR, hinit, hf]
    | some pr =>
      obtain ⟨i, dir⟩ := pr
      by_cases hcap : MAX_NUMBERS_PER_DIRECTORY ≤ (dir.entries.getD []).length
      · left; rw [addNumberR_full hinit hf hcap]
      · by_cases hdup : ∃ e ∈ dir.entries.getD [], e.speedDialCode = c
        · left; rw [addNumberR_duplicate hinit hf (Nat.not_le.mp hcap) hdup]
        · have hdup2 : ∀ e ∈ dir.entries.getD [], e.speedDialCode ≠ c :=
            fun e he hec => hdup ⟨e, he, hec⟩
          right
          exact ⟨i, dir, rfl, hdup2,
            by rw [addNumberR_ok hinit hf (Nat.not_le.mp hcap) hdup2]⟩
  · left
    have hinit2 : m.initialized = false := by simpa using hinit
    simp [addNumberR, hinit2]

theorem removeNumberR_state_cases (m : SpeedDialManager) (dn c : String) :
    (removeNumberR m dn c).2 = m ∨
    ∃ i dir j, findDir m dn = some (i, dir) ∧
      (removeNumberR m dn c).2
        = setEntries m i dir ((dir.entries.getD []).eraseIdx j) := by
  by_cases hinit : m.initialized = true
  · cases hf : findDir m dn with
    | none => left; simp [removeNumberR, hinit, hf]
    | some pr =>
      obtain ⟨i, dir⟩ := pr
      cases hj : (dir.entries.getD []).findIdx? (fun e => e.speedDialCode == c) with
      | none => left; simp [removeNumberR, hinit, hf, hj]
      | some j =>
        right
        exact ⟨i, dir, j, rfl, by rw [removeNumberR_ok hinit hf hj]⟩
  · left
    have hinit2 : m.initialized = false := by simpa using hinit
    simp [removeNumberR, hinit2]

theorem codesUnique_setEntries {m : SpeedDialManager} {i : Nat} {dir : Directory}
    {l : List SpeedDialEntry} (hm : codesUnique m)
    (hl : (l.map (fun e => e.speedDialCode)).Nodup) :
    codesUnique (setEntries m i dir l) := by
  intro d hd
  rcases List.mem_or_eq_of_mem_set hd with hmem | rfl
  · exact hm d hmem
  · simpa [Directory.codes] using hl

theorem codesUnique_applyOp {m : SpeedDialManager} (hm : codesUnique m)
    (op : Op) (hop : opCodeBounded op) : codesUnique (applyOp m op) := by
  cases op with
  | init =>
    show codesUnique (initializeSpeedDialManager m).2
    by_cases hi : m.initialized = true
    · simpa [initializeSpeedDialManager, hi] using hm
    · have hi2 : m.initialized = false := by simpa using hi
      intro d hd
      simp only [initializeSpeedDialManager, hi2, Bool.false_eq_true, if_false] at hd
      rcases List.mem_map.mp hd with ⟨k, -, rfl⟩
      simp [Directory.codes]
  | add dn c p =>
    show codesUnique (addNumberR m dn c p).2
    rcases addNumberR_state_cases m dn c p with heq | ⟨i, dir, hf, habs, heq⟩
    · rw [heq]; exact hm
    · rw [heq]
      have hnod := hm dir (List.getElem?_mem (findDirAux_eq_some hf).1)
      apply codesUnique_setEntries hm
      have hc : strTake (MAX_CODE_LENGTH - 1) c = c := strTake_eq_of_le hop
      have hone : ([storedEntry c p]).map (fun e => e.speedDialCode) = [c] := by
        simp [storedEntry, hc]
      rw [List.map_append, hone, List.nodup_append]
      refine ⟨hnod, List.nodup_singleton c, ?_⟩
      intro a ha hb
      rw [List.mem_singleton] at hb
      subst hb
      obtain ⟨e, he, hec⟩ := List.mem_map.mp ha
      exact habs e he hec
  | remove dn c =>
    show codesUnique (removeNumberR m dn c).2
    rcases removeNumberR_state_cases m dn c with heq | ⟨i, dir, j, hf, heq⟩
    · rw [heq]; exact hm
    · rw [heq]
      have hnod := hm dir (List.getElem?_mem (findDirAux_eq_some hf).1)
      apply codesUnique_setEntries hm
      exact List.Nodup.sublist ((List.eraseIdx_sublist _ j).map _) hnod
  | free =>
    show codesUnique (freeSpeedDialManager m).2.2
    by_cases hi : m.initialized = true
    · intro d hd
      simp only [freeSpeedDialManager, hi, Bool.not_true, Bool.false_eq_true,
        if_false] at hd
      rcases List.mem_map.mp hd with ⟨a, -, rfl⟩
      simp [Directory.codes]
    · have hi2 : m.initialized = false := by simpa using hi
      simpa [freeSpeedDialManager, hi2] using hm

theorem codesUnique_foldl (ops : List Op) :
    ∀ (m : SpeedDialManager), (∀ op ∈ ops, opCodeBounded op) → codesUnique m →
      codesUnique (ops.foldl applyOp m) := by
  induction ops with
  | nil =>
    intro m _ hm
    simpa using hm
  | cons op rest ih =>
    intro m h hm
    simp only [List.foldl_cons]
    exact ih _ (fun o ho => h o (List.mem_cons_of_mem _ ho))
      (codesUnique_applyOp hm op (h op (List.mem_cons_self _ _)))

/-- C1 as frozen is false on this code: the duplicate scan compares the
raw argument while the store truncates to 49 characters, so after adding a
49-character code, adding its 50-character extension is accepted and both
entries end up with the same stored code — two entries with one code in
one partition, from add calls alone. -/
theorem claim1_counterexample :
    (addNumberR (addNumberR mInit "Directory 1" codeA49 "111").2
      "Directory 1" codeA50 "222").1 = .ok ∧
    codeCount (addNumberR (addNumberR mInit "Directory 1" codeA49 "111").2
      "Directory 1" codeA50 "222").2 "Directory 1" codeA49 = 2 ∧
    ¬ codesUnique (runOps [.init, .add "Directory 1" codeA49 "111",
      .add "Directory 1" codeA50 "222"]) :=
  ⟨by decide, by decide, by decide⟩

/-- C1 (amended): for every operation sequence in which each add's code is
within the configured maximum stored length (`MAX_CODE_LENGTH - 1`
characters), every partition's codes stay pairwise distinct at all times;
and whenever add is called on an initialized store with the partition
found, not full, and the code already present, it returns DuplicateCode
and leaves the whole store (hence the entry count) unchanged. -/
theorem claim1_uniqueness_amended :
    (∀ ops : List Op, (∀ op ∈ ops, opCodeBounded op) →
      codesUnique (runOps ops)) ∧
    (∀ (m : SpeedDialManager) (dn c p : String) (i : Nat) (dir : Directory),
      m.initialized = true → findDir m dn = some (i, dir) →
      (dir.entries.getD []).length < MAX_NUMBERS_PER_DIRECTORY →
      (∃ e ∈ dir.entries.getD [], e.speedDialCode = c) →
      addNumberR m dn c p = (.duplicateCode, m)) :=
  ⟨fun ops h => codesUnique_foldl ops manager0 h (by decide),
   fun m dn c p i dir hinit hfind hlen hdup =>
     addNumberR_duplicate hinit hfind hlen hdup⟩

/-- Witness for C1 (amended): a bounded-code demo sequence keeps codes
unique, and a duplicate add of "home" into home/work/mom is rejected with
the store unchanged. -/
theorem claim1_witness :
    ((∀ op ∈ ([.init, .add "Directory 1" "home" "111",
        .add "Directory 1" "work" "222", .remove "Directory 1" "home",
        .add "Directory 2" "home" "333"] : List Op), opCodeBounded op) ∧
     mThree.initialized = true ∧
     findDir mThree "Directory 1" = some (0, dirThree) ∧
     (dirThree.entries.getD []).length < MAX_NUMBERS_PER_DIRECTORY ∧
     (∃ e ∈ dirThree.entries.getD [], e.speedDialCode = "home")) ∧
    codesUnique (runOps [.init, .add "Directory 1" "home" "111",
      .add "Directory 1" "work" "222", .remove "Directory 1" "home",
      .add "Directory 2" "home" "333"]) ∧
    addNumberR mThree "Directory 1" "home" "999" = (.duplicateCode, mThree) :=
  ⟨⟨by decide, rfl, by decide, by decide, by decide⟩,
   claim1_uniqueness_amended.1 [.init, .add "Directory 1" "home" "111",
     .add "Directory 1" "work" "222", .remove "Directory 1" "home",
     .add "Directory 2" "home" "333"] (by decide),
   claim1_uniqueness_amended.2 mThree "Directory 1" "home" "999" 0 dirThree
     rfl (by decide) (by decide) (by decide)⟩

/-- C3 as frozen is false on `addNumber`: a 50-character code exceeds the
longest storable code (49 characters), yet the add is accepted and the
entry is stored with the silently truncated 49-character code. -/
theorem claim3_counterexample :
    MAX_CODE_LENGTH - 1 < strLen codeA50 ∧
    (addNumberR mInit "Directory 1" codeA50 "222").1 = .ok ∧
    listNumbersInDirectory (addNumberR mInit "Directory 1" codeA50 "222").2
      "Directory 1" = some [(codeA49, "222")] ∧
    codeA49 ≠ codeA50 :=
  ⟨by decide, by decide, by decide, by decide⟩

/-- C3 (amended): only `assignSpeedDial` of `Spddia.c` enforces the hard
length rejection — a phone number of `MAX_PHONE_NUMBER_LEN` or more
characters is rejected with `-1` and nothing is stored; `addNumber` of
`speeddial1000nos5dir.c` never rejects on length: any accepted add stores
the code and value silently truncated to `MAX_CODE_LENGTH - 1` resp.
`MAX_PHONE_LENGTH - 1` characters. -/
theorem claim3_length_policy_amended :
    (∀ (lst : List SpddiaEntry) (index : Int) (number : String)
        (name : Option String),
      MAX_PHONE_NUMBER_LEN ≤ strLen number →
      assignSpeedDial lst index number name = (-1, lst)) ∧
    (∀ (m : SpeedDialManager) (dn c p : String) (i : Nat) (dir : Directory),
      m.initialized = true → findDir m dn = some (i, dir) →
      (dir.entries.getD []).length < MAX_NUMBERS_PER_DIRECTORY →
      (∀ e ∈ dir.entries.getD [], e.speedDialCode ≠ c) →
      addNumberR m dn c p
        = (.ok, setEntries m i dir
            ((dir.entries.getD []) ++ [storedEntry c p]))) := by
  constructor
  · intro lst index number name h
    by_cases hidx : (decide (index < 0) || decide ((MAX_SPEED_DIALS : Int) ≤ index)) = true
    · simp [assignSpeedDial, hidx]
    · simp only [assignSpeedDial, hidx, Bool.false_eq_true, if_false]
      rw [if_pos h]
  · intro m dn c p i dir hinit hfind hlen hdup
    exact addNumberR_ok hinit hfind hlen hdup

/-- Witness for C3 (amended): a 15-character number is rejected by
`assignSpeedDial`, and `addNumber` accepts and truncates a 50-character
code. -/
theorem claim3_witness :
    (MAX_PHONE_NUMBER_LEN ≤ strLen "123456789012345") ∧
    assignSpeedDial speedDialList0 5 "123456789012345" none
      = (-1, speedDialList0) ∧
    addNumberR mInit "Directory 1" codeA50 "222"
      = (.ok, setEntries mInit 0 { name := "Directory 1", entries := some [] }
          (([] : List SpeedDialEntry) ++ [storedEntry codeA50 "222"])) :=
  ⟨by decide,
   claim3_length_policy_amended.1 speedDialList0 5 "123456789012345" none
     (by decide),
   claim3_length_policy_amended.2 mInit "Directory 1" codeA50 "222" 0
     { name := "Directory 1", entries := some [] } rfl (by decide) (by decide)
     (by decide)⟩

end Speeddial
